import Mathlib

/-!
Verification development for the HpBandSter master control loop
(`hpbandster/core/master.py`).

The embedding below models, faithfully to the Python source:
* the scheduling loop of `HpBandSter.run` (lines 179-204), including its
  use of the local variable `next_run` (which is unbound when the `for`
  loop over `active_iterations()` never executes) and the bare call
  `get_next_iteration(...)` on line 193, a name that is not defined in any
  enclosing scope and therefore raises `NameError` in Python;
* `active_iterations` (filter of non-finished iteration indices over
  `range(len(iterations))`);
* `_submit_job` (increments `num_running_jobs`);
* `_queue_wait` (blocks iff `num_running_jobs >= high` and
  `num_running_jobs > low`);
* `job_callback` (decrement, conditional notify, register_result under the
  lock, `new_result` after releasing it);
* `adjust_queue_size` (watermark rescaling by worker count);
* the `__init__` queue-size validation; and
* the final `HB_result([copy.deepcopy(i.data) for i in self.iterations],
  self.config)` expression, with `copy.deepcopy` modeled on an explicit
  heap so that independence from later mutation is expressible.

Iteration objects are external collaborators; they are modeled as a
finished flag plus a queue of pending runnable jobs (`get_next_run` hands
out the head), which is one admissible collaborator behavior.  The loop is
modeled single-threaded: completion callbacks can only run while the loop
is inside `thread_cond.wait()`, so traces that never wait involve no
callback interleaving.
-/

namespace HpBandSter

/-- A runnable job description `(config_id, config, budget)` as returned by
`Iteration.get_next_run`; the payloads are opaque to the master, so they
are modeled as naturals. -/
structure Run where
  config_id : Nat
  config : Nat
  budget : Nat
deriving DecidableEq, Repr

/-- Model of one iteration collaborator: a finished flag, a queue of
pending runnable jobs, and a reference (heap address) to its opaque data
store. -/
structure Iter where
  is_finished : Bool
  pending : List Run
  data : Nat
deriving DecidableEq, Repr

instance : Inhabited Iter := ⟨⟨false, [], 0⟩⟩

/-- `get_next_run`: non-blocking; returns the next runnable job if one
exists, mutating the iteration's internal state (here: popping the
queue). -/
def Iter.get_next_run : Iter → Option Run × Iter
  | ⟨f, [], d⟩ => (none, ⟨f, [], d⟩)
  | ⟨f, r :: rs, d⟩ => (some r, ⟨f, rs, d⟩)

/-- State of the master visible to the scheduling loop.  `next_run_local`
models the Python local variable `next_run` of `run`: `none` means the
variable is unbound, `some v` means it currently holds `v` (where `v` is
itself an `Option Run`, Python `None` being `none`).  `submitted` records
each submitted job together with the value of `num_running_jobs`
immediately after that submission. -/
structure MasterState where
  iterations : List Iter
  num_running_jobs : Int
  job_queue_sizes : Int × Int
  next_run_local : Option (Option Run)
  submitted : List (Run × Int)
deriving DecidableEq, Repr

/-- `active_iterations` (master.py line 270): indices of not-finished
iterations, `filter(lambda idx: not iterations[idx].is_finished,
range(len(iterations)))`. -/
def active_iterations (its : List Iter) : List Nat :=
  (List.range its.length).filter (fun i => !(its.getD i default).is_finished)

/-- The `for i in self.active_iterations(): next_run =
self.iterations[i].get_next_run(); if not next_run is None: break` loop
(lines 182-184).  `acc` is the current value of the local `next_run`
before the loop (persisting across loop passes); the result is its value
after the loop together with the updated iteration list. -/
def scanStep : List Iter → List Nat → Option (Option Run) → Option (Option Run) × List Iter
  | its, [], acc => (acc, its)
  | its, i :: rest, _ =>
    match Iter.get_next_run (its.getD i default) with
    | (some r, it') => (some (some r), its.set i it')
    | (none, it') => scanStep (its.set i it') rest (some none)

/-- `_submit_job` (lines 246-257): under the lock, hand the job to the
dispatcher and increment `num_running_jobs`. -/
def submit_job (s : MasterState) (r : Run) : MasterState :=
  { s with
      num_running_jobs := s.num_running_jobs + 1,
      submitted := s.submitted ++ [(r, s.num_running_jobs + 1)] }

/-- `_queue_wait` (lines 236-244) enters its wait loop iff
`num_running_jobs >= job_queue_sizes[1]` and then keeps waiting while
`num_running_jobs > job_queue_sizes[0]`.  In a single-threaded trace with
no completion callback pending, entering the wait loop blocks forever. -/
def queue_wait_blocks (s : MasterState) : Bool :=
  decide (s.num_running_jobs ≥ s.job_queue_sizes.2) &&
    decide (s.num_running_jobs > s.job_queue_sizes.1)

/-- Outcome of one pass of the `while True` body of `run`. -/
inductive PassOut
  /-- `active_iterations()` was empty and `next_run` had never been
  assigned: `if not next_run is None` raises `UnboundLocalError`. -/
  | unboundLocalError
  /-- A job was found and submitted via `_submit_job`. -/
  | submitted (r : Run) (s : MasterState)
  /-- No job found and `n_iterations > 0`: line 193 evaluates the bare
  name `get_next_iteration`, which is not defined in any enclosing scope,
  so Python raises `NameError` before appending anything. -/
  | nameErrorNewIteration (s : MasterState)
  /-- No job found and budget exhausted: `_queue_wait()` was called;
  `blocked` records whether its wait loop was entered. -/
  | waited (blocked : Bool) (s : MasterState)
deriving DecidableEq, Repr

/-- One pass of the scheduling loop body (lines 179-197). -/
def runPass (s : MasterState) (n_iterations : Int) : PassOut :=
  match scanStep s.iterations (active_iterations s.iterations) s.next_run_local with
  | (localv, its') =>
    let s1 : MasterState := { s with iterations := its', next_run_local := localv }
    match localv with
    | none => PassOut.unboundLocalError
    | some (some r) => PassOut.submitted r (submit_job s1 r)
    | some none =>
      if n_iterations > 0 then PassOut.nameErrorNewIteration s1
      else PassOut.waited (queue_wait_blocks s1) s1

/-- Outcome of `run`, driving passes until exit, error, block, or fuel
exhaustion (fuel bounds the number of passes in the model). -/
inductive RunOutcome
  | finished (s : MasterState)
  | unboundLocalError (s : MasterState)
  | nameErrorGetNextIteration (s : MasterState)
  | blocked (s : MasterState)
  | outOfFuel (s : MasterState)
deriving DecidableEq, Repr

/-- The `while True` loop of `run` (lines 179-201): after a submission the
loop breaks iff `active_iterations()` is empty (line 200); after a
non-blocking `_queue_wait` it continues. -/
def runLoop : Nat → MasterState → Int → RunOutcome
  | 0, s, _ => RunOutcome.outOfFuel s
  | fuel + 1, s, n =>
    match runPass s n with
    | PassOut.unboundLocalError => RunOutcome.unboundLocalError s
    | PassOut.nameErrorNewIteration s1 => RunOutcome.nameErrorGetNextIteration s1
    | PassOut.submitted _ s1 =>
      if active_iterations s1.iterations = [] then RunOutcome.finished s1
      else runLoop fuel s1 n
    | PassOut.waited true s1 => RunOutcome.blocked s1
    | PassOut.waited false s1 => runLoop fuel s1 n

/-! ## Completion callback (`job_callback`, lines 217-233) -/

/-- A completed job as delivered to `job_callback`; only its identity
`(iteration_index, round_index, config_index)` matters to the master. -/
structure Job where
  id : Nat × Nat × Nat
deriving DecidableEq, Repr

/-- State touched by `job_callback`: the in-flight counter, the watermark
pair, and the per-iteration lists of registered results
(`iterations[i].register_result(job)` appends to entry `i`). -/
structure CbState where
  num_running_jobs : Int
  job_queue_sizes : Int × Int
  iteration_results : List (List Job)
deriving DecidableEq, Repr

/-- Observable actions of one `job_callback` invocation, in order. -/
inductive CbEvent
  | acquireLock
  | decrementCount
  | notifyWaiter
  | registerResult (iterationIndex : Nat)
  | releaseLock
  | newResult
deriving DecidableEq, Repr

/-- `job_callback` (lines 217-233): `with self.thread_cond:` decrement
`num_running_jobs`; if the new count is `<= job_queue_sizes[0]`,
`notify()`; `iterations[job.id[0]].register_result(job)`; then, after the
`with` block releases the lock, `config_generator.new_result(job)`. -/
def job_callback (s : CbState) (job : Job) : CbState × List CbEvent :=
  let n := s.num_running_jobs - 1
  let notifyEvs := if n ≤ s.job_queue_sizes.1 then [CbEvent.notifyWaiter] else []
  ({ num_running_jobs := n,
     job_queue_sizes := s.job_queue_sizes,
     iteration_results :=
       s.iteration_results.set job.id.1
         ((s.iteration_results.getD job.id.1 []) ++ [job]) },
   [CbEvent.acquireLock, CbEvent.decrementCount] ++ notifyEvs ++
     [CbEvent.registerResult job.id.1, CbEvent.releaseLock, CbEvent.newResult])

/-! ## Watermark rescaling (`adjust_queue_size`, lines 207-214) -/

/-- State touched by `adjust_queue_size`: the scaling flag, the operator's
baseline pair `user_job_queue_sizes`, the effective pair
`job_queue_sizes`, and the dispatcher's current worker count (used when
the callback passes `None`). -/
structure QueueCtl where
  dynamic_queue_size : Bool
  user_job_queue_sizes : Int × Int
  job_queue_sizes : Int × Int
  dispatcher_workers : Int
deriving DecidableEq, Repr

/-- `adjust_queue_size(number_of_workers=None)`: if `dynamic_queue_size`,
set `job_queue_sizes = (user[0] + nw, user[1] + nw)` where `nw` is the
argument or, if `None`, `dispatcher.number_of_workers()`, and
`notify_all()` (the returned Bool); otherwise do nothing. -/
def adjust_queue_size (s : QueueCtl) (number_of_workers : Option Int) : QueueCtl × Bool :=
  if s.dynamic_queue_size then
    let nw := number_of_workers.getD s.dispatcher_workers
    ({ s with
        job_queue_sizes :=
          (s.user_job_queue_sizes.1 + nw, s.user_job_queue_sizes.2 + nw) }, true)
  else
    (s, false)

/-! ## Construction (`__init__`, lines 17-107) -/

/-- The master state established by a successful `__init__`;
`dispatcher_started` records that the dispatcher thread was launched
(lines 104-107), which happens only after the queue-size check has
passed, so no job can ever be submitted by a failed construction. -/
structure InitState where
  num_running_jobs : Int
  job_queue_sizes : Int × Int
  user_job_queue_sizes : Int × Int
  dynamic_queue_size : Bool
  iterations_len : Nat
  dispatcher_started : Bool
deriving DecidableEq, Repr

/-- `__init__` (queue-size validation, lines 93-94): raise `ValueError` if
`job_queue_sizes[0] >= job_queue_sizes[1]`, else finish construction and
start the dispatcher thread. -/
def HpBandSter_init (job_queue_sizes : Int × Int) (dynamic_queue_size : Bool) :
    Except String InitState :=
  if job_queue_sizes.1 ≥ job_queue_sizes.2 then
    Except.error "The queue size range needs to be (min, max) with min<max!"
  else
    Except.ok
      { num_running_jobs := 0,
        job_queue_sizes := job_queue_sizes,
        user_job_queue_sizes := job_queue_sizes,
        dynamic_queue_size := dynamic_queue_size,
        iterations_len := 0,
        dispatcher_started := true }

/-! ## In-flight counter as a fold over submit/complete events -/

/-- A submit or complete event touching `num_running_jobs`. -/
inductive JobEv
  | submitEv
  | completeEv
deriving DecidableEq, Repr

/-- The counter update: `num_running_jobs += 1` in `_submit_job` (line
257), `num_running_jobs -= 1` in `job_callback` (line 226). -/
def counter_step (c : Int) : JobEv → Int
  | JobEv.submitEv => c + 1
  | JobEv.completeEv => c - 1

/-- Value of `num_running_jobs` after a sequence of events, starting from
the `__init__` value `0` (line 88). -/
def counter_after (evs : List JobEv) : Int :=
  evs.foldl counter_step 0

/-- Number of submissions in a sequence. -/
def submits : List JobEv → Nat
  | [] => 0
  | JobEv.submitEv :: t => submits t + 1
  | JobEv.completeEv :: t => submits t

/-- Number of completions in a sequence. -/
def completes : List JobEv → Nat
  | [] => 0
  | JobEv.submitEv :: t => completes t
  | JobEv.completeEv :: t => completes t + 1

/-- `wf_aux s c evs`: given `s` submissions and `c` completions so far,
every completion in `evs` is matched by a strictly earlier submission
(each completion corresponds to a previously submitted job, delivered
once). -/
def wf_aux : Nat → Nat → List JobEv → Bool
  | _, _, [] => true
  | s, c, JobEv.submitEv :: t => wf_aux (s + 1) c t
  | s, c, JobEv.completeEv :: t => decide (c + 1 ≤ s) && wf_aux s (c + 1) t

/-- An event sequence is well formed when every prefix has at least as
many submissions as completions. -/
def wellFormed (evs : List JobEv) : Bool :=
  wf_aux 0 0 evs

/-! ## Final result construction (`run` line 204)

`return HB_result([copy.deepcopy(i.data) for i in self.iterations],
self.config)`.  Data stores live on an explicit heap (`Heap`); an
iteration's `data` field is a heap address; `copy.deepcopy` allocates a
fresh cell holding an equal value, so later in-place mutation of an
iteration's store cannot reach the copy. -/

/-- The heap of data-store values; a reference is an index, the stored
value is opaque (modeled as `Nat`). -/
abbrev Heap := List Nat

/-- `copy.deepcopy`: allocate a fresh cell holding the value at `r`. -/
def deepcopy (h : Heap) (r : Nat) : Heap × Nat :=
  (h ++ [h.getD r 0], h.length)

/-- The list comprehension `[copy.deepcopy(i.data) for i in iterations]`:
deep-copy each data store in creation order. -/
def deepcopyList : Heap → List Nat → Heap × List Nat
  | h, [] => (h, [])
  | h, r :: rs =>
    let p := deepcopy h r
    let q := deepcopyList p.1 rs
    (q.1, p.2 :: q.2)

/-- `HB_result(data_list, config)`: the aggregated result returned by
`run` — per-iteration data snapshots (as heap references) in creation
order plus the latched run configuration (opaque, modeled as a pair). -/
structure HB_result where
  data : List Nat
  config : Nat × Nat
deriving DecidableEq, Repr

/-- The return expression of `run` (line 204), applied to the iteration
list held at loop exit. -/
def run_return (h : Heap) (its : List Iter) (config : Nat × Nat) : Heap × HB_result :=
  let p := deepcopyList h (its.map Iter.data)
  (p.1, ⟨p.2, config⟩)

/-! ## Generic list helpers -/

/-- `getD` after `set` at the written index (in range) yields the written
value. -/
theorem getD_set_self {α : Type} (l : List α) (i : Nat) (v d : α) (h : i < l.length) :
    (l.set i v).getD i d = v := by
  simp [List.getD, List.getElem?_set_self, h]

/-- `getD` after `set` at a different index is unchanged. -/
theorem getD_set_ne {α : Type} (l : List α) (i k : Nat) (v d : α) (h : k ≠ i) :
    (l.set i v).getD k d = l.getD k d := by
  simp [List.getD, List.getElem?_set_ne (Ne.symm h)]

/-- Writing back the value read at an index leaves the list unchanged. -/
theorem set_getD_cancel {α : Type} (l : List α) (i : Nat) (d : α) :
    l.set i (l.getD i d) = l := by
  induction l generalizing i with
  | nil => rfl
  | cons a t ih =>
    cases i with
    | zero => simp [List.getD]
    | succ j => exact congrArg (List.cons a) (ih j)

/-- An in-range `getD` is a member of the list. -/
theorem getD_mem {α : Type} (l : List α) (k : Nat) (d : α) (h : k < l.length) :
    l.getD k d ∈ l := by
  induction l generalizing k with
  | nil => simp at h
  | cons a t ih =>
    cases k with
    | zero => simp [List.getD]
    | succ j =>
      simp only [List.getD, List.getElem?_cons_succ]
      exact List.mem_cons_of_mem _ (ih j (by simpa using h))

/-- `getD` through `map` at an in-range index. -/
theorem getD_map_data (its : List Iter) (k : Nat) (h : k < its.length) :
    (its.map Iter.data).getD k 0 = (its.getD k default).data := by
  induction its generalizing k with
  | nil => simp at h
  | cons a t ih =>
    cases k with
    | zero => simp [List.getD]
    | succ j =>
      simp only [List.map, List.getD, List.getElem?_cons_succ]
      exact ih j (by simpa using h)

/-! ## Shared example states -/

/-- A master state holding exactly one finished iteration (nothing
runnable, nothing active), counter 0, watermarks `(0, 1)`, with the local
`next_run` not yet assigned — the state at the top of the first pass of
`run` once an earlier run has completed an iteration, or (with the list
empty instead) on a fresh instance. -/
def allFinishedState : MasterState :=
  { iterations := [⟨true, [], 0⟩],
    num_running_jobs := 0,
    job_queue_sizes := (0, 1),
    next_run_local := none,
    submitted := [] }

/-- A master state with one active iteration that currently has no
runnable job, counter 0, watermarks `(0, 1)`, local `next_run` unbound. -/
def idleIterationState : MasterState :=
  { iterations := [⟨false, [], 0⟩],
    num_running_jobs := 0,
    job_queue_sizes := (0, 1),
    next_run_local := none,
    submitted := [] }

/-- A master state with valid watermarks `(0, 1)` and one active
iteration holding two runnable jobs back to back. -/
def twoJobState : MasterState :=
  { iterations := [⟨false, [⟨0, 0, 1⟩, ⟨1, 0, 1⟩], 0⟩],
    num_running_jobs := 0,
    job_queue_sizes := (0, 1),
    next_run_local := none,
    submitted := [] }

/-! ## Theorems -/

/-- C1: the claim fails on the code.  With the valid watermark pair
`(0, 1)` (`0 < 1`) and one active iteration yielding two jobs, the loop
submits both jobs back to back without ever calling `_queue_wait` first
(`run` only reaches `_queue_wait` when no job is runnable), so
`num_running_jobs` is `2 > high = 1` immediately after the second
submission — recorded in the `submitted` trace as the counts `1` and `2`.
Only afterwards, with nothing left to schedule and the budget exhausted,
does the loop block, still holding 2 in-flight jobs. -/
theorem submissions_exceed_high_watermark :
    runLoop 3 twoJobState 0
      = RunOutcome.blocked
          { iterations := [⟨false, [], 0⟩],
            num_running_jobs := 2,
            job_queue_sizes := (0, 1),
            next_run_local := some none,
            submitted := [(⟨0, 0, 1⟩, 1), (⟨1, 0, 1⟩, 2)] }
      ∧ twoJobState.job_queue_sizes.1 < twoJobState.job_queue_sizes.2
      ∧ twoJobState.job_queue_sizes.2 < 2 := by
  decide

/-- C2: the claim fails on the code.  With one finished iteration (every
created iteration reports finished) and remaining budget 1, the loop does
not create a new iteration: the scan body never runs, so reading the local
`next_run` raises `UnboundLocalError`.  With the budget exhausted (0) the
loop likewise crashes instead of exiting normally and returning a result.
No iteration is ever appended and no job submitted. -/
theorem run_crashes_instead_of_iterating_or_returning :
    runLoop 5 allFinishedState 1 = RunOutcome.unboundLocalError allFinishedState
    ∧ runLoop 5 allFinishedState 0 = RunOutcome.unboundLocalError allFinishedState
    ∧ allFinishedState.submitted = []
    ∧ allFinishedState.iterations.length = 1 := by
  decide

/-- C3: confirmed.  Whenever the iteration set is empty at the start of a
scheduling pass with the local `next_run` never assigned (in particular on
the first pass of `run` on a fresh instance), `active_iterations()` is
empty, the scan body never executes, and `if not next_run is None` raises
`UnboundLocalError` — for every counter value, watermark pair and budget —
before any iteration is created or any job is submitted (the state is
returned unchanged, with an empty submission trace). -/
theorem run_unbound_local_on_empty_iterations
    (count : Int) (sizes : Int × Int) (budget : Int) (fuel : Nat)
    (hfuel : 1 ≤ fuel) :
    runLoop fuel
      { iterations := [], num_running_jobs := count, job_queue_sizes := sizes,
        next_run_local := none, submitted := [] } budget
      = RunOutcome.unboundLocalError
          { iterations := [], num_running_jobs := count, job_queue_sizes := sizes,
            next_run_local := none, submitted := [] } := by
  cases fuel with
  | zero => exact absurd hfuel (by decide)
  | succ f => rfl

/-- Witness for C3 at concrete inputs. -/
theorem run_unbound_local_on_empty_iterations_witness :
    runLoop 1
      { iterations := [], num_running_jobs := 0, job_queue_sizes := (0, 1),
        next_run_local := none, submitted := [] } 5
      = RunOutcome.unboundLocalError
          { iterations := [], num_running_jobs := 0, job_queue_sizes := (0, 1),
            next_run_local := none, submitted := [] } :=
  run_unbound_local_on_empty_iterations 0 (0, 1) 5 1 (by decide)

/-- C4: the claim fails on the code.  In a pass where the scan finds no
runnable job (one active iteration returning `None`) and the budget is
positive, line 193 evaluates the bare name `get_next_iteration` — not
`self.get_next_iteration` — which is undefined in every enclosing scope,
so Python raises `NameError`: no new iteration is appended (the iteration
count stays 1), the budget is never decremented, and the loop aborts. -/
theorem new_iteration_branch_raises_name_error :
    runLoop 1 idleIterationState 1
      = RunOutcome.nameErrorGetNextIteration
          { iterations := [⟨false, [], 0⟩],
            num_running_jobs := 0,
            job_queue_sizes := (0, 1),
            next_run_local := some none,
            submitted := [] }
    ∧ idleIterationState.iterations.length = 1 := by
  decide

/-- C5: confirmed.  For every state and worker count `n`,
`adjust_queue_size` with dynamic scaling enabled sets the effective
watermark pair to `(base_low + n, base_high + n)` from the operator's
baseline pair and notifies all waiters (returned Bool `true`); with
dynamic scaling disabled it leaves the pair unchanged regardless of `n`
and notifies nobody.  The baseline pair itself is never modified. -/
theorem adjust_queue_size_spec (s : QueueCtl) (n : Int) :
    (adjust_queue_size s (some n)).1.job_queue_sizes
      = (if s.dynamic_queue_size then
          (s.user_job_queue_sizes.1 + n, s.user_job_queue_sizes.2 + n)
        else s.job_queue_sizes)
    ∧ (adjust_queue_size s (some n)).2 = s.dynamic_queue_size
    ∧ (adjust_queue_size s (some n)).1.user_job_queue_sizes = s.user_job_queue_sizes
    ∧ (adjust_queue_size s (some n)).1.dynamic_queue_size = s.dynamic_queue_size := by
  cases h : s.dynamic_queue_size <;> simp [adjust_queue_size, h]

/-- C9: confirmed.  For every queue-size pair with `low >= high`,
construction raises `ValueError` immediately — before the dispatcher
thread is started, hence before any job can be submitted and before any
run starts; for every pair with `low < high`, construction succeeds (does
not raise on account of the pair), with counter 0 and no iterations. -/
theorem init_rejects_bad_queue_sizes (sizes : Int × Int) (dyn : Bool) :
    (sizes.1 ≥ sizes.2 →
      HpBandSter_init sizes dyn =
        Except.error "The queue size range needs to be (min, max) with min<max!")
    ∧ (sizes.1 < sizes.2 →
      HpBandSter_init sizes dyn =
        Except.ok
          { num_running_jobs := 0, job_queue_sizes := sizes,
            user_job_queue_sizes := sizes, dynamic_queue_size := dyn,
            iterations_len := 0, dispatcher_started := true }) := by
  constructor
  · intro h
    rw [HpBandSter_init, if_pos h]
  · intro h
    rw [HpBandSter_init, if_neg (by omega)]

/-- Witness for C9 at the concrete pairs `(1, 1)` (rejected) and `(0, 1)`
(accepted). -/
theorem init_rejects_bad_queue_sizes_witness :
    HpBandSter_init (1, 1) false =
      Except.error "The queue size range needs to be (min, max) with min<max!"
    ∧ HpBandSter_init (0, 1) true =
      Except.ok
        { num_running_jobs := 0, job_queue_sizes := (0, 1),
          user_job_queue_sizes := (0, 1), dynamic_queue_size := true,
          iterations_len := 0, dispatcher_started := true } :=
  ⟨(init_rejects_bad_queue_sizes (1, 1) false).1 (by decide),
   (init_rejects_bad_queue_sizes (0, 1) true).2 (by decide)⟩

/-- C7: confirmed.  For every completed job, `job_callback`, under the
shared lock, decrements the in-flight count; wakes a waiter exactly when
the new count is at or below `low` (`job_queue_sizes[0]`); appends the job
to the results of the iteration whose index is the first component of the
job's identity (`iterations[job.id[0]].register_result(job)`), leaving
every other iteration's results untouched; and only after releasing the
lock notifies the configuration generator via `new_result` — the
`newResult` event is the last event, strictly after `releaseLock`. -/
theorem job_callback_spec (s : CbState) (job : Job)
    (h : job.id.1 < s.iteration_results.length) :
    (job_callback s job).1.num_running_jobs = s.num_running_jobs - 1
    ∧ ((CbEvent.notifyWaiter ∈ (job_callback s job).2) ↔
        s.num_running_jobs - 1 ≤ s.job_queue_sizes.1)
    ∧ (job_callback s job).1.iteration_results.getD job.id.1 []
        = s.iteration_results.getD job.id.1 [] ++ [job]
    ∧ (∀ k, k ≠ job.id.1 →
        (job_callback s job).1.iteration_results.getD k []
          = s.iteration_results.getD k [])
    ∧ (∃ pre, (job_callback s job).2 = pre ++ [CbEvent.newResult]
        ∧ CbEvent.releaseLock ∈ pre
        ∧ CbEvent.newResult ∉ pre
        ∧ CbEvent.registerResult job.id.1 ∈ pre) := by
  refine ⟨rfl, ?_, ?_, ?_, ?_⟩
  · by_cases hn : s.num_running_jobs - 1 ≤ s.job_queue_sizes.1 <;>
      simp [job_callback, hn]
  · exact getD_set_self _ _ _ _ h
  · intro k hk
    exact getD_set_ne _ _ _ _ _ hk
  · by_cases hn : s.num_running_jobs - 1 ≤ s.job_queue_sizes.1
    · refine ⟨[CbEvent.acquireLock, CbEvent.decrementCount, CbEvent.notifyWaiter,
          CbEvent.registerResult job.id.1, CbEvent.releaseLock], ?_, ?_, ?_, ?_⟩ <;>
        simp [job_callback, hn]
    · refine ⟨[CbEvent.acquireLock, CbEvent.decrementCount,
          CbEvent.registerResult job.id.1, CbEvent.releaseLock], ?_, ?_, ?_, ?_⟩ <;>
        simp [job_callback, hn]

/-- A concrete callback state: counter 2, watermarks `(1, 3)`, two
iterations with empty result lists. -/
def cbExState : CbState :=
  { num_running_jobs := 2,
    job_queue_sizes := (1, 3),
    iteration_results := [[], []] }

/-- A concrete completed job belonging to iteration 1. -/
def cbExJob : Job := ⟨(1, 0, 2)⟩

/-- Witness for C7 at a concrete state and job. -/
theorem job_callback_spec_witness :
    (job_callback cbExState cbExJob).1.num_running_jobs
        = cbExState.num_running_jobs - 1
    ∧ ((CbEvent.notifyWaiter ∈ (job_callback cbExState cbExJob).2) ↔
        cbExState.num_running_jobs - 1 ≤ cbExState.job_queue_sizes.1)
    ∧ (job_callback cbExState cbExJob).1.iteration_results.getD cbExJob.id.1 []
        = cbExState.iteration_results.getD cbExJob.id.1 [] ++ [cbExJob] :=
  ⟨(job_callback_spec cbExState cbExJob (by decide)).1,
   (job_callback_spec cbExState cbExJob (by decide)).2.1,
   (job_callback_spec cbExState cbExJob (by decide)).2.2.1⟩

/-- The counter fold from any start value equals start plus submissions
minus completions. -/
theorem foldl_counter_step (evs : List JobEv) : ∀ k : Int,
    evs.foldl counter_step k = k + (submits evs : Int) - (completes evs : Int) := by
  induction evs with
  | nil => intro k; simp [submits, completes]
  | cons e t ih =>
    intro k
    cases e with
    | submitEv =>
      simp only [List.foldl, counter_step, submits, completes, ih]
      push_cast
      ring
    | completeEv =>
      simp only [List.foldl, counter_step, submits, completes, ih]
      push_cast
      ring

/-- Well-formedness bounds completions by submissions (relative to the
accumulated counts). -/
theorem wf_aux_count (evs : List JobEv) : ∀ s c : Nat, c ≤ s →
    wf_aux s c evs = true → c + completes evs ≤ s + submits evs := by
  induction evs with
  | nil => intro s c hcs _; simpa [submits, completes] using hcs
  | cons e t ih =>
    intro s c hcs hwf
    cases e with
    | submitEv =>
      have := ih (s + 1) c (by omega) (by simpa [wf_aux] using hwf)
      simp [submits, completes] at this ⊢
      omega
    | completeEv =>
      simp only [wf_aux, Bool.and_eq_true, decide_eq_true_eq] at hwf
      have := ih s (c + 1) hwf.1 hwf.2
      simp [submits, completes] at this ⊢
      omega

/-- Well-formedness is closed under taking prefixes. -/
theorem wf_aux_take (evs : List JobEv) : ∀ s c n : Nat,
    wf_aux s c evs = true → wf_aux s c (evs.take n) = true := by
  induction evs with
  | nil => intro s c n _; simp [wf_aux]
  | cons e t ih =>
    intro s c n hwf
    cases n with
    | zero => rfl
    | succ m =>
      cases e with
      | submitEv =>
        simp only [List.take_succ_cons, wf_aux] at hwf ⊢
        exact ih _ _ m hwf
      | completeEv =>
        simp only [List.take_succ_cons, wf_aux, Bool.and_eq_true] at hwf ⊢
        exact ⟨hwf.1, ih _ _ m hwf.2⟩

/-- C8: confirmed.  For every interleaved sequence of submit and complete
events in which every completion is matched by a strictly earlier
submission (each completion corresponds to a previously submitted job,
delivered exactly once — `wellFormed`), the in-flight counter
`num_running_jobs` is, after every prefix of the sequence (hence at every
point, quiescent points included), exactly the number of submissions
issued so far minus the number of completions observed so far, and in
particular never negative.  Taking `n ≥` the sequence length covers the
whole sequence. -/
theorem counter_inflight_invariant (evs : List JobEv)
    (h : wellFormed evs = true) : ∀ n : Nat,
    counter_after (evs.take n)
        = (submits (evs.take n) : Int) - (completes (evs.take n) : Int)
    ∧ 0 ≤ counter_after (evs.take n) := by
  intro n
  have hwf : wf_aux 0 0 (evs.take n) = true := wf_aux_take evs 0 0 n h
  have hc : completes (evs.take n) ≤ submits (evs.take n) := by
    have := wf_aux_count (evs.take n) 0 0 (Nat.le_refl 0) hwf
    omega
  have he : counter_after (evs.take n)
      = (submits (evs.take n) : Int) - (completes (evs.take n) : Int) := by
    have := foldl_counter_step (evs.take n) 0
    simpa [counter_after] using this
  exact ⟨he, by omega⟩

/-- Witness for C8 on the concrete sequence submit, submit, complete. -/
theorem counter_inflight_invariant_witness :
    counter_after ([JobEv.submitEv, JobEv.submitEv, JobEv.completeEv].take 3)
        = (submits ([JobEv.submitEv, JobEv.submitEv, JobEv.completeEv].take 3) : Int)
          - (completes ([JobEv.submitEv, JobEv.submitEv, JobEv.completeEv].take 3) : Int)
    ∧ 0 ≤ counter_after ([JobEv.submitEv, JobEv.submitEv, JobEv.completeEv].take 3) :=
  counter_inflight_invariant [JobEv.submitEv, JobEv.submitEv, JobEv.completeEv]
    (by decide) 3

/-- `get_next_run` on an iteration with no pending run returns `None` and
leaves the iteration unchanged. -/
theorem get_next_run_empty (it : Iter) (h : it.pending = []) :
    Iter.get_next_run it = (none, it) := by
  obtain ⟨f, p, d⟩ := it
  cases p with
  | nil => rfl
  | cons r rs => simp at h

/-- `get_next_run` on an iteration with a pending run hands out the head
and pops it. -/
theorem get_next_run_cons (it : Iter) (r : Run) (rs : List Run)
    (h : it.pending = r :: rs) :
    Iter.get_next_run it = (some r, ⟨it.is_finished, rs, it.data⟩) := by
  obtain ⟨f, p, d⟩ := it
  cases h
  rfl

/-- Unfolding equation for one step of the scan loop. -/
theorem scanStep_cons (its : List Iter) (i : Nat) (rest : List Nat)
    (acc : Option (Option Run)) :
    scanStep its (i :: rest) acc =
      match Iter.get_next_run (its.getD i default) with
      | (some r, it') => (some (some r), its.set i it')
      | (none, it') => scanStep (its.set i it') rest (some none) := rfl

/-- If `j` is in the scanned index list, iteration `j` has a pending run
`r`, and every scanned index before `j` has no pending run, then the scan
loop ends with the local `next_run` holding `r` (initial local value
irrelevant). -/
theorem scanStep_finds (idxs : List Nat) (its : List Iter)
    (j : Nat) (r : Run) (rs : List Run)
    (hmem : j ∈ idxs)
    (hj : (its.getD j default).pending = r :: rs)
    (hbefore : ∀ i ∈ idxs, i < j → (its.getD i default).pending = [])
    (hsorted : idxs.Pairwise (· < ·)) :
    ∀ acc, ∃ its', scanStep its idxs acc = (some (some r), its') := by
  induction idxs with
  | nil => cases hmem
  | cons i rest ih =>
    intro acc
    by_cases hij : i = j
    · subst hij
      refine ⟨its.set i ⟨(its.getD i default).is_finished, rs, (its.getD i default).data⟩, ?_⟩
      rw [scanStep_cons, get_next_run_cons _ _ _ hj]
    · have hj_rest : j ∈ rest := by
        cases hmem with
        | head => exact absurd rfl hij
        | tail _ hmem' => exact hmem'
      have hi_lt : i < j := (List.pairwise_cons.mp hsorted).1 j hj_rest
      have hpend : (its.getD i default).pending = [] :=
        hbefore i (List.mem_cons_self i rest) hi_lt
      have h1 : scanStep its (i :: rest) acc
          = scanStep (its.set i (its.getD i default)) rest (some none) := by
        rw [scanStep_cons, get_next_run_empty _ hpend]
      rw [h1, set_getD_cancel]
      exact ih hj_rest
        (fun i' hi' hlt => hbefore i' (List.mem_cons_of_mem _ hi') hlt)
        (List.pairwise_cons.mp hsorted).2 (some none)

/-- Membership in `active_iterations`: exactly the in-range indices of
not-finished iterations. -/
theorem mem_active_iterations (its : List Iter) (i : Nat) :
    i ∈ active_iterations its ↔
      i < its.length ∧ (its.getD i default).is_finished = false := by
  simp [active_iterations, List.mem_filter, List.mem_range]

/-- `active_iterations` lists indices in strictly increasing (creation)
order. -/
theorem active_iterations_sorted (its : List Iter) :
    (active_iterations its).Pairwise (· < ·) :=
  (List.pairwise_lt_range its.length).sublist (List.filter_sublist _)

/-- C6: confirmed.  In every scheduling pass, the loop scans iterations in
creation order and asks only non-finished iterations for a next runnable
job: if iteration `j` is not finished and has a runnable job `r`, and
every earlier non-finished iteration has none (finished iterations are
never asked, whatever they hold), then the pass submits exactly `r` — the
job of the lowest-indexed non-finished iteration that offers one —
incrementing the counter and recording the submission. -/
theorem scheduler_prefers_lowest_active_iteration
    (s : MasterState) (n_iterations : Int) (j : Nat) (r : Run) (rs : List Run)
    (hjlen : j < s.iterations.length)
    (hjact : (s.iterations.getD j default).is_finished = false)
    (hjrun : (s.iterations.getD j default).pending = r :: rs)
    (hmin : ∀ i, i < j → (s.iterations.getD i default).is_finished = false →
        (s.iterations.getD i default).pending = []) :
    ∃ s', runPass s n_iterations = PassOut.submitted r s'
      ∧ s'.num_running_jobs = s.num_running_jobs + 1
      ∧ s'.submitted = s.submitted ++ [(r, s.num_running_jobs + 1)] := by
  have hmem : j ∈ active_iterations s.iterations :=
    (mem_active_iterations _ _).mpr ⟨hjlen, hjact⟩
  have hbefore : ∀ i ∈ active_iterations s.iterations, i < j →
      (s.iterations.getD i default).pending = [] := fun i hi hlt =>
    hmin i hlt ((mem_active_iterations _ _).mp hi).2
  obtain ⟨its', hscan⟩ :=
    scanStep_finds (active_iterations s.iterations) s.iterations j r rs
      hmem hjrun hbefore (active_iterations_sorted _) s.next_run_local
  exact ⟨submit_job { s with iterations := its', next_run_local := some (some r) } r,
    by simp [runPass, hscan], rfl, rfl⟩

/-- A master state with four iterations: a finished one still holding a
pending run, an active one with nothing runnable, and two active ones with
runnable jobs — the lower-indexed of the latter two must win. -/
def fourIterState : MasterState :=
  { iterations :=
      [⟨true, [⟨9, 9, 9⟩], 0⟩, ⟨false, [], 1⟩,
       ⟨false, [⟨2, 0, 1⟩], 2⟩, ⟨false, [⟨3, 0, 1⟩], 3⟩],
    num_running_jobs := 0,
    job_queue_sizes := (0, 1),
    next_run_local := none,
    submitted := [] }

/-- Witness for C6: on `fourIterState` the pass submits iteration 2's job,
skipping the finished iteration 0 and the idle iteration 1 and preferring
iteration 2 over iteration 3. -/
theorem scheduler_prefers_lowest_active_iteration_witness :
    ∃ s', runPass fourIterState 0 = PassOut.submitted ⟨2, 0, 1⟩ s'
      ∧ s'.num_running_jobs = fourIterState.num_running_jobs + 1
      ∧ s'.submitted
          = fourIterState.submitted ++ [(⟨2, 0, 1⟩, fourIterState.num_running_jobs + 1)] :=
  scheduler_prefers_lowest_active_iteration fourIterState 0 2 ⟨2, 0, 1⟩ []
    (by decide) (by decide) (by decide) (by decide)

/-- Specification of `deepcopyList`: the heap only grows (old cells keep
their values), one fresh cell is allocated per copied reference in order,
every returned reference points past the original heap, and each returned
reference holds the value of the corresponding source reference. -/
theorem deepcopyList_spec (rs : List Nat) : ∀ h : Heap,
    h.length ≤ (deepcopyList h rs).1.length
    ∧ (deepcopyList h rs).2.length = rs.length
    ∧ (∀ i, i < h.length → (deepcopyList h rs).1.getD i 0 = h.getD i 0)
    ∧ (∀ k, k < rs.length → h.length ≤ (deepcopyList h rs).2.getD k 0)
    ∧ (∀ k, k < rs.length → rs.getD k 0 < h.length →
        (deepcopyList h rs).1.getD ((deepcopyList h rs).2.getD k 0) 0
          = h.getD (rs.getD k 0) 0) := by
  induction rs with
  | nil =>
    intro h
    refine ⟨Nat.le_refl _, rfl, fun i _ => rfl, fun k hk => by simp at hk,
      fun k hk _ => by simp at hk⟩
  | cons r rest ih =>
    intro h
    obtain ⟨ihlen, ihrlen, ihpres, ihlb, ihval⟩ := ih (h ++ [h.getD r 0])
    have hlen1 : (h ++ [h.getD r 0]).length = h.length + 1 := by simp
    have e1 : (deepcopyList h (r :: rest)).1
        = (deepcopyList (h ++ [h.getD r 0]) rest).1 := rfl
    refine ⟨?_, ?_, ?_, ?_, ?_⟩
    · rw [e1]; omega
    · exact congrArg Nat.succ ihrlen
    · intro i hi
      rw [e1, ihpres i (by omega), List.getD_append _ _ _ _ hi]
    · intro k hk
      cases k with
      | zero => exact Nat.le_refl h.length
      | succ m =>
        have e2 : (deepcopyList h (r :: rest)).2.getD (m + 1) 0
            = (deepcopyList (h ++ [h.getD r 0]) rest).2.getD m 0 := rfl
        rw [e2]
        have := ihlb m (by simpa using hk)
        omega
    · intro k hk hval
      cases k with
      | zero =>
        have e2 : (deepcopyList h (r :: rest)).2.getD 0 0 = h.length := rfl
        have e3 : (r :: rest).getD 0 0 = r := rfl
        have hmid : (h ++ [h.getD r 0]).getD h.length 0 = h.getD r 0 := by
          simp [List.getD_append_right, Nat.le_refl]
        rw [e1, e2, e3, ihpres h.length (by omega), hmid]
      | succ m =>
        have hm : m < rest.length := by simpa using hk
        have e2 : (deepcopyList h (r :: rest)).2.getD (m + 1) 0
            = (deepcopyList (h ++ [h.getD r 0]) rest).2.getD m 0 := rfl
        have e3 : (r :: rest).getD (m + 1) 0 = rest.getD m 0 := rfl
        rw [e3] at hval
        rw [e1, e2, e3, ihval m hm (by omega), List.getD_append _ _ _ _ hval]

/-- C10: confirmed.  The value returned on normal termination of `run`,
`HB_result([copy.deepcopy(i.data) for i in self.iterations],
self.config)`, contains one snapshot per created iteration in creation
order, each holding the value of that iteration's data store, together
with the latched run configuration; and because every snapshot lives in a
freshly allocated cell, subsequently mutating any iteration's own data
store (writing any value `v` to any heap cell referenced by an
iteration's `data`) leaves every value reachable from the returned result
unchanged. -/
theorem run_result_deepcopy_independent
    (heap : Heap) (its : List Iter) (config : Nat × Nat)
    (hvalid : ∀ it ∈ its, it.data < heap.length) :
    (run_return heap its config).2.config = config
    ∧ (run_return heap its config).2.data.length = its.length
    ∧ (∀ k, k < its.length →
        (run_return heap its config).1.getD
            ((run_return heap its config).2.data.getD k 0) 0
          = heap.getD (its.getD k default).data 0)
    ∧ (∀ j v k, j ∈ its.map Iter.data → k < its.length →
        ((run_return heap its config).1.set j v).getD
            ((run_return heap its config).2.data.getD k 0) 0
          = heap.getD (its.getD k default).data 0) := by
  obtain ⟨hlen, hrlen, hpres, hlb, hval⟩ := deepcopyList_spec (its.map Iter.data) heap
  have hmaplen : (its.map Iter.data).length = its.length := List.length_map _ _
  have hkval : ∀ k, k < its.length → (its.map Iter.data).getD k 0 < heap.length := by
    intro k hk
    rw [getD_map_data its k hk]
    exact hvalid _ (getD_mem its k default hk)
  refine ⟨rfl, by simpa [run_return] using hrlen, ?_, ?_⟩
  · intro k hk
    have := hval k (by omega) (hkval k hk)
    rw [getD_map_data its k hk] at this
    exact this
  · intro j v k hj hk
    have hjlt : j < heap.length := by
      obtain ⟨it, hit, rfl⟩ := List.mem_map.mp hj
      exact hvalid it hit
    have hge : heap.length ≤ (deepcopyList heap (its.map Iter.data)).2.getD k 0 :=
      hlb k (by omega)
    have hne : (deepcopyList heap (its.map Iter.data)).2.getD k 0 ≠ j := by omega
    have hset : ((run_return heap its config).1.set j v).getD
        ((run_return heap its config).2.data.getD k 0) 0
        = (run_return heap its config).1.getD
            ((run_return heap its config).2.data.getD k 0) 0 :=
      getD_set_ne _ _ _ _ _ (by simpa [run_return] using hne)
    rw [hset]
    have := hval k (by omega) (hkval k hk)
    rw [getD_map_data its k hk] at this
    exact this

/-- Witness for C10: heap `[10, 20]`, two finished iterations owning cells
0 and 1; after the result is built, overwriting iteration 0's store with
99 leaves the result's first snapshot equal to the original value. -/
theorem run_result_deepcopy_independent_witness :
    ((run_return [10, 20] [⟨true, [], 0⟩, ⟨true, [], 1⟩] (7, 7)).1.set 0 99).getD
        ((run_return [10, 20] [⟨true, [], 0⟩, ⟨true, [], 1⟩] (7, 7)).2.data.getD 0 0) 0
      = ([10, 20] : Heap).getD
          (([⟨true, [], 0⟩, ⟨true, [], 1⟩] : List Iter).getD 0 default).data 0 :=
  (run_result_deepcopy_independent [10, 20] [⟨true, [], 0⟩, ⟨true, [], 1⟩] (7, 7)
    (by decide)).2.2.2 0 99 0 (by decide) (by decide)

end HpBandSter
